import Mathlib

/-!
Verification of the message-routing core of the `veronica` chatbot framework
(`src/adapter.ts`: the `Adapter` base class and the `Robot` dispatcher class).

The embedding models:
* the listener dispatch pipeline (`Robot.receive`, the live `for ... of` loop
  over `pluginListeners`),
* outbound routing (`Robot.send`, `Robot.reply`, adapter registry lookup),
* the base `Adapter` methods (`emote`, `receive`, no-op outbound primitives),
* `respondPattern` and the compiled respond regexes, together with a small
  positional matcher for the regex subset those patterns use.

JavaScript specifics that matter are modelled explicitly: array iteration in a
`for ... of` loop observes elements appended during the iteration; property
access on `undefined` raises a `TypeError`; `RegExp.prototype.test` scans all
start positions, and `^` (without the `m` flag) asserts position 0.
-/

/-! ## Messages and listeners -/

/-- A `TextMessage` (`src/message` is imported by the source; only the fields
relevant to dispatch are carried: `text`, plus `user`/`room` metadata). -/
structure Message where
  text : String
  user : String
  room : String

/-- A registered listener. `matcher` abstracts the compiled pattern test,
`throws` says whether its callback raises, and `registers` are the listeners
its callback registers via `robot.hear`/`robot.respond` (which push onto the
live `pluginListeners` array) while it runs. -/
inductive Listener where
  | mk (matcher : String → Bool) (throws : Bool) (registers : List Listener)

def Listener.matcher : Listener → (String → Bool)
  | .mk m _ _ => m

def Listener.throws : Listener → Bool
  | .mk _ t _ => t

def Listener.registers : Listener → List Listener
  | .mk _ _ r => r

def defaultListener : Listener := .mk (fun _ => false) false []

/-- Observable events of one dispatch: which listeners were tested and
invoked, completion-callback deliveries, exceptions caught at the listener
boundary, and log lines. -/
inductive DispatchEvent where
  | tested (i : Nat)
  | invoked (i : Nat)
  | delivered (i : Nat)
  | errorCaught (i : Nat)
  | logged (s : String)
deriving DecidableEq

/-- The body of a listener callback: it either raises or returns the listeners
it registered while running. -/
def callbackRun (l : Listener) : Except String (List Listener) :=
  if l.throws then Except.error "listener callback raised" else Except.ok l.registers

/-- Modelled from the spec: `Listener.call` (class `Listener`/`TextListener`
from `./listener`, imported but not under `src/`) tests the message text
against the compiled pattern; on a match it invokes the callback with a
`Response`, delivers the optional completion callback when present, and
catches (logging, never propagating) any exception the callback raises
(spec 4.2 step 3 and the listener-boundary error rule). -/
def callEvents (l : Listener) (i : Nat) (text : String) (cbPresent : Bool) : List DispatchEvent :=
  if l.matcher text then
    [DispatchEvent.tested i, DispatchEvent.invoked i]
      ++ (if cbPresent then [DispatchEvent.delivered i] else [])
      ++ (match callbackRun l with
          | Except.ok _ => []
          | Except.error _ => [DispatchEvent.errorCaught i])
  else [DispatchEvent.tested i]

/-- Listeners appended to the live `pluginListeners` array by the callback of
`l` during its invocation (nothing is registered when the pattern does not
match, since the callback never runs; nothing is registered when the callback
raises before returning). -/
def callRegisters (l : Listener) (text : String) : List Listener :=
  if l.matcher text then
    match callbackRun l with
    | Except.ok rs => rs
    | Except.error _ => []
  else []

/-- Result of one `Robot.receive` dispatch: the final listener array, the
event trace, and whether the loop ran to completion within the given fuel
(the JavaScript loop has no fuel; `completed = true` identifies the runs the
real loop performs). -/
structure DispatchResult where
  listeners : List Listener
  events : List DispatchEvent
  completed : Bool

/-- The `for (let listener of this.pluginListeners)` loop of `Robot.receive`
(src/adapter.ts:469-472). JavaScript array iterators are live: each step
re-checks the current index against the current length, so elements appended
during the loop are visited. -/
def dispatchLoop (text : String) (cbPresent : Bool) :
    Nat → Nat → List Listener → List DispatchEvent → DispatchResult
  | 0, i, ls, evs =>
    if i < ls.length then ⟨ls, evs, false⟩ else ⟨ls, evs, true⟩
  | Nat.succ fuel, i, ls, evs =>
    if h : i < ls.length then
      dispatchLoop text cbPresent fuel (i + 1)
        (ls ++ callRegisters (ls.get ⟨i, h⟩) text)
        (evs ++ callEvents (ls.get ⟨i, h⟩) i text cbPresent)
    else ⟨ls, evs, true⟩

/-- `Robot.receive(message, adapter, callback)` (src/adapter.ts:463-473).
`message as TextMessage` is a compile-time cast (a runtime no-op), so the
`if (!msg)` guard fires exactly on a falsy (`null`/`undefined`) message:
that case logs and returns without touching any listener. Otherwise every
listener of the live array is called. `cbPresent` models whether the nullable
`callback` argument is non-null. -/
def Robot.receive (ls : List Listener) (message : Option Message) (cbPresent : Bool)
    (fuel : Nat) : DispatchResult :=
  match message with
  | none => ⟨ls, [DispatchEvent.logged "[Robot] blank message error"], true⟩
  | some m => dispatchLoop m.text cbPresent fuel 0 ls []

/-- `Adapter.receive(message)` (src/adapter.ts:26-28): forwards to
`this.robot.receive(message, this, null)` — the completion callback is the
literal `null`, i.e. absent. -/
def Adapter.receive (ls : List Listener) (fuel : Nat) (message : Option Message) :
    DispatchResult :=
  Robot.receive ls message false fuel

/-- Indices of `tested` events, in trace order. -/
def testedIndices (evs : List DispatchEvent) : List Nat :=
  evs.filterMap fun e =>
    match e with
    | DispatchEvent.tested i => some i
    | _ => none

/-- `idxRange s n = [s, s+1, ..., s+n-1]`. -/
def idxRange (s : Nat) : Nat → List Nat
  | 0 => []
  | Nat.succ n => s :: idxRange (s + 1) n

/-- Concatenation of per-index event blocks. -/
def eventsFor (g : Nat → List DispatchEvent) : List Nat → List DispatchEvent
  | [] => []
  | j :: js => g j ++ eventsFor g js

/-- A listener that matches every message and registers nothing. -/
def listenerAlways : Listener := .mk (fun _ => true) false []

/-- A listener that matches every message and, while its callback runs,
registers `listenerAlways` via the robot (pushing onto the live array). -/
def listenerRegistering : Listener := .mk (fun _ => true) false [listenerAlways]

/-- A listener that matches every message and whose callback raises. -/
def listenerThrowing : Listener := .mk (fun _ => true) true []

def msgHi : Message := ⟨"hi", "user1", "room1"⟩

/-! ## Dispatch-loop lemmas -/

lemma getD_append_left {α : Type} :
    ∀ (l t : List α) (i : Nat) (d : α), i < l.length → (l ++ t).getD i d = l.getD i d := by
  intro l t
  induction l with
  | nil => intro i d h; simp at h
  | cons a l ih =>
    intro i d h
    cases i with
    | zero => rfl
    | succ i => exact ih i d (by simpa using h)

lemma getD_eq_get {α : Type} :
    ∀ (l : List α) (i : Nat) (d : α) (h : i < l.length), l.getD i d = l.get ⟨i, h⟩ := by
  intro l
  induction l with
  | nil => intro i d h; simp at h
  | cons a l ih =>
    intro i d h
    cases i with
    | zero => rfl
    | succ i => exact ih i d (by simpa using h)

lemma idxRange_succ (s n : Nat) : idxRange s (n + 1) = s :: idxRange (s + 1) n := rfl

lemma mem_idxRange : ∀ (n s j : Nat), j ∈ idxRange s n ↔ s ≤ j ∧ j < s + n := by
  intro n
  induction n with
  | zero => intro s j; simp [idxRange]
  | succ n ih =>
    intro s j
    rw [idxRange_succ]
    simp [ih (s + 1) j]
    omega

lemma eventsFor_cons (g : Nat → List DispatchEvent) (j : Nat) (js : List Nat) :
    eventsFor g (j :: js) = g j ++ eventsFor g js := rfl

lemma eventsFor_mem {g : Nat → List DispatchEvent} {e : DispatchEvent} {j : Nat} :
    ∀ {js : List Nat}, j ∈ js → e ∈ g j → e ∈ eventsFor g js := by
  intro js
  induction js with
  | nil => intro h; simp at h
  | cons a js ih =>
    intro hj he
    rw [eventsFor_cons, List.mem_append]
    rcases List.mem_cons.mp hj with h | h
    · exact Or.inl (h ▸ he)
    · exact Or.inr (ih h he)

/-- Invariant of the live dispatch loop: when the loop completes, the listener
array has only been appended to, and the event trace is exactly the blocks of
`Listener.call` events for indices `i, i+1, ...` up to the final length, each
call observing the listener at its index in the final array. -/
lemma dispatchLoop_spec (text : String) (cb : Bool) :
    ∀ (fuel i : Nat) (ls : List Listener) (evs : List DispatchEvent),
      (dispatchLoop text cb fuel i ls evs).completed = true →
      (∃ t, (dispatchLoop text cb fuel i ls evs).listeners = ls ++ t) ∧
      (dispatchLoop text cb fuel i ls evs).events
        = evs ++ eventsFor
            (fun j => callEvents
              ((dispatchLoop text cb fuel i ls evs).listeners.getD j defaultListener) j text cb)
            (idxRange i ((dispatchLoop text cb fuel i ls evs).listeners.length - i)) := by
  intro fuel
  induction fuel with
  | zero =>
    intro i ls evs h
    by_cases hi : i < ls.length
    · simp [dispatchLoop, hi] at h
    · simp only [dispatchLoop, if_neg hi]
      have hlen : ls.length - i = 0 := by omega
      exact ⟨⟨[], by simp⟩, by simp [hlen, idxRange, eventsFor]⟩
  | succ fuel ih =>
    intro i ls evs h
    by_cases hi : i < ls.length
    · have hstep : dispatchLoop text cb (fuel + 1) i ls evs
          = dispatchLoop text cb fuel (i + 1)
              (ls ++ callRegisters (ls.get ⟨i, hi⟩) text)
              (evs ++ callEvents (ls.get ⟨i, hi⟩) i text cb) := by
        simp only [dispatchLoop, dif_pos hi]
      rw [hstep] at h ⊢
      obtain ⟨⟨t, hL⟩, hE⟩ := ih (i + 1) (ls ++ callRegisters (ls.get ⟨i, hi⟩) text)
        (evs ++ callEvents (ls.get ⟨i, hi⟩) i text cb) h
      set R := dispatchLoop text cb fuel (i + 1)
        (ls ++ callRegisters (ls.get ⟨i, hi⟩) text)
        (evs ++ callEvents (ls.get ⟨i, hi⟩) i text cb) with hR
      have hlenR : i < R.listeners.length := by
        rw [hL]
        simp [List.length_append]
        omega
      have hsub : R.listeners.length - i = (R.listeners.length - (i + 1)) + 1 := by omega
      have hgetD : R.listeners.getD i defaultListener = ls.get ⟨i, hi⟩ := by
        rw [hL, List.append_assoc, getD_append_left ls _ i defaultListener hi,
          getD_eq_get ls i defaultListener hi]
      constructor
      · exact ⟨callRegisters (ls.get ⟨i, hi⟩) text ++ t, by rw [hL, List.append_assoc]⟩
      · rw [hE, hsub, idxRange_succ, eventsFor_cons, hgetD, List.append_assoc]
    · simp only [dispatchLoop, dif_neg hi]
      have hlen : ls.length - i = 0 := by omega
      exact ⟨⟨[], by simp⟩, by simp [hlen, idxRange, eventsFor]⟩

lemma testedIndices_append (a b : List DispatchEvent) :
    testedIndices (a ++ b) = testedIndices a ++ testedIndices b :=
  List.filterMap_append a b _

lemma testedIndices_callEvents (l : Listener) (i : Nat) (text : String) (cb : Bool) :
    testedIndices (callEvents l i text cb) = [i] := by
  cases hm : l.matcher text <;> cases hc : cb <;> cases ht : l.throws <;>
    simp [callEvents, callbackRun, testedIndices, hm, ht]

lemma testedIndices_eventsFor (f : Nat → Listener) (text : String) (cb : Bool) :
    ∀ js : List Nat,
      testedIndices (eventsFor (fun j => callEvents (f j) j text cb) js) = js := by
  intro js
  induction js with
  | nil => rfl
  | cons a js ih =>
    rw [eventsFor_cons, testedIndices_append, testedIndices_callEvents, ih]
    rfl

lemma tested_mem_callEvents (l : Listener) (i : Nat) (text : String) (cb : Bool) :
    DispatchEvent.tested i ∈ callEvents l i text cb := by
  cases hm : l.matcher text <;> simp [callEvents, hm]

lemma errorCaught_mem_callEvents (l : Listener) (i : Nat) (text : String) (cb : Bool)
    (hm : l.matcher text = true) (ht : l.throws = true) :
    DispatchEvent.errorCaught i ∈ callEvents l i text cb := by
  cases hc : cb <;> simp [callEvents, callbackRun, hm, ht]

lemma delivered_not_mem_callEvents (l : Listener) (i j : Nat) (text : String) :
    DispatchEvent.delivered j ∉ callEvents l i text false := by
  cases hm : l.matcher text <;> cases ht : l.throws <;>
    simp [callEvents, callbackRun, hm, ht]

lemma no_delivered_loop (text : String) :
    ∀ (fuel i : Nat) (ls : List Listener) (evs : List DispatchEvent) (j : Nat),
      DispatchEvent.delivered j ∉ evs →
      DispatchEvent.delivered j ∉ (dispatchLoop text false fuel i ls evs).events := by
  intro fuel
  induction fuel with
  | zero =>
    intro i ls evs j hj
    by_cases hi : i < ls.length <;> simpa [dispatchLoop, hi] using hj
  | succ fuel ih =>
    intro i ls evs j hj
    by_cases hi : i < ls.length
    · have hstep : dispatchLoop text false (fuel + 1) i ls evs
          = dispatchLoop text false fuel (i + 1)
              (ls ++ callRegisters (ls.get ⟨i, hi⟩) text)
              (evs ++ callEvents (ls.get ⟨i, hi⟩) i text false) := by
        simp only [dispatchLoop, dif_pos hi]
      rw [hstep]
      refine ih (i + 1) _ _ j ?_
      intro hmem
      rcases List.mem_append.mp hmem with h | h
      · exact hj h
      · exact delivered_not_mem_callEvents _ _ _ _ h
    · simpa [dispatchLoop, dif_neg hi] using hj

/-! ## Claim theorems: dispatch pipeline -/

/-- Claim C1 (amended). When the dispatch loop of `Robot.receive` completes,
the trace of `Listener.call` invocations is exactly one test per listener of
the *final* listener array, by ascending index: every listener registered
before dispatch began (a prefix of the final array) is called exactly once, in
registration order, but listeners registered while dispatch is in flight are
appended to the live array and are *also* called against the in-flight
message — the JavaScript `for ... of` loop observes appended elements. -/
theorem receive_trace (ls : List Listener) (m : Message) (cb : Bool) (fuel : Nat)
    (h : (Robot.receive ls (some m) cb fuel).completed = true) :
    testedIndices (Robot.receive ls (some m) cb fuel).events
      = idxRange 0 (Robot.receive ls (some m) cb fuel).listeners.length
  ∧ ∃ t, (Robot.receive ls (some m) cb fuel).listeners = ls ++ t := by
  have hr : Robot.receive ls (some m) cb fuel = dispatchLoop m.text cb fuel 0 ls [] := rfl
  rw [hr] at h ⊢
  obtain ⟨⟨t, hL⟩, hE⟩ := dispatchLoop_spec m.text cb fuel 0 ls [] h
  refine ⟨?_, ⟨t, hL⟩⟩
  rw [hE]
  simp only [List.nil_append, Nat.sub_zero]
  exact testedIndices_eventsFor
    (fun j => (dispatchLoop m.text cb fuel 0 ls []).listeners.getD j defaultListener) m.text cb _

/-- Witness for `receive_trace` at a concrete single-listener run. -/
theorem receive_trace_witness :
    (Robot.receive [listenerAlways] (some msgHi) false 1).completed = true
  ∧ (testedIndices (Robot.receive [listenerAlways] (some msgHi) false 1).events
      = idxRange 0 (Robot.receive [listenerAlways] (some msgHi) false 1).listeners.length
     ∧ ∃ t, (Robot.receive [listenerAlways] (some msgHi) false 1).listeners
        = [listenerAlways] ++ t) :=
  ⟨rfl, receive_trace [listenerAlways] msgHi false 1 rfl⟩

/-- Claim C1, counterexample to the claim as stated: starting from the single
registered listener `listenerRegistering`, whose callback registers
`listenerAlways` during dispatch, the in-flight message is also tested against
and invokes the newly registered listener (index 1) — listeners registered
after dispatch begins ARE applied to the in-flight message. -/
theorem receive_applies_late_listener :
    ([listenerRegistering] : List Listener).length = 1
  ∧ (Robot.receive [listenerRegistering] (some msgHi) false 2).completed = true
  ∧ (Robot.receive [listenerRegistering] (some msgHi) false 2).events
      = [DispatchEvent.tested 0, DispatchEvent.invoked 0,
         DispatchEvent.tested 1, DispatchEvent.invoked 1] :=
  ⟨rfl, rfl, rfl⟩

/-- Claim C7. A falsy (`null`/`undefined`) message — the only inbound value
the `if (!msg)` guard of `Robot.receive` can reject, since the
`as TextMessage` cast is a runtime no-op — makes the call a no-op that only
logs: the listener list is unchanged, the only event is the log line, and no
listener is tested or invoked. -/
theorem receive_null_noop (ls : List Listener) (cb : Bool) (fuel : Nat) :
    (Robot.receive ls none cb fuel).listeners = ls
  ∧ (Robot.receive ls none cb fuel).events
      = [DispatchEvent.logged "[Robot] blank message error"]
  ∧ (Robot.receive ls none cb fuel).completed = true
  ∧ ∀ i, DispatchEvent.tested i ∉ (Robot.receive ls none cb fuel).events
       ∧ DispatchEvent.invoked i ∉ (Robot.receive ls none cb fuel).events := by
  refine ⟨rfl, rfl, rfl, fun i => ⟨?_, ?_⟩⟩ <;> simp [Robot.receive]

/-- Claim C8. An exception raised inside a listener's matched callback is
caught at the listener boundary (`callbackRun`'s error is consumed inside
`callEvents`, producing an `errorCaught` event instead of propagating), so on
a completed dispatch every listener — including every one after a throwing
listener — is still tested against the same message. -/
theorem listener_errors_isolated (ls : List Listener) (m : Message) (cb : Bool) (fuel : Nat)
    (h : (Robot.receive ls (some m) cb fuel).completed = true) :
    ∀ i, i < (Robot.receive ls (some m) cb fuel).listeners.length →
      DispatchEvent.tested i ∈ (Robot.receive ls (some m) cb fuel).events
    ∧ (((Robot.receive ls (some m) cb fuel).listeners.getD i defaultListener).matcher m.text
          = true →
       ((Robot.receive ls (some m) cb fuel).listeners.getD i defaultListener).throws = true →
       DispatchEvent.errorCaught i ∈ (Robot.receive ls (some m) cb fuel).events) := by
  have hr : Robot.receive ls (some m) cb fuel = dispatchLoop m.text cb fuel 0 ls [] := rfl
  rw [hr] at h ⊢
  obtain ⟨⟨t, hL⟩, hE⟩ := dispatchLoop_spec m.text cb fuel 0 ls [] h
  intro i hi
  have hmem : i ∈ idxRange 0 ((dispatchLoop m.text cb fuel 0 ls []).listeners.length - 0) := by
    rw [mem_idxRange]
    omega
  constructor
  · rw [hE]
    simp only [List.nil_append]
    exact eventsFor_mem hmem (tested_mem_callEvents _ i m.text cb)
  · intro hm ht
    rw [hE]
    simp only [List.nil_append]
    exact eventsFor_mem hmem (errorCaught_mem_callEvents _ i m.text cb hm ht)

/-- Witness for `listener_errors_isolated`: a throwing listener at index 0 has
its exception caught, and the listener at index 1 is still tested. -/
theorem listener_errors_isolated_witness :
    DispatchEvent.errorCaught 0
      ∈ (Robot.receive [listenerThrowing, listenerAlways] (some msgHi) false 2).events
  ∧ DispatchEvent.tested 1
      ∈ (Robot.receive [listenerThrowing, listenerAlways] (some msgHi) false 2).events :=
  ⟨((listener_errors_isolated [listenerThrowing, listenerAlways] msgHi false 2 rfl) 0
      (by decide)).2 rfl rfl,
   ((listener_errors_isolated [listenerThrowing, listenerAlways] msgHi false 2 rfl) 1
      (by decide)).1⟩

/-- Claim C9. The base `Adapter.receive` forwards every message to the
dispatcher as `robot.receive(message, this, null)`; with the completion
callback absent, no completion signal is ever delivered through it on this
inbound path. -/
theorem adapter_receive_null_callback :
    (∀ (ls : List Listener) (fuel : Nat) (message : Option Message),
        Adapter.receive ls fuel message = Robot.receive ls message false fuel)
  ∧ ∀ (ls : List Listener) (fuel : Nat) (message : Option Message) (i : Nat),
      DispatchEvent.delivered i ∉ (Adapter.receive ls fuel message).events := by
  refine ⟨fun _ _ _ => rfl, ?_⟩
  intro ls fuel message i
  cases message with
  | none => simp [Adapter.receive, Robot.receive]
  | some m =>
    have hr : Adapter.receive ls fuel (some m) = dispatchLoop m.text false fuel 0 ls [] := rfl
    rw [hr]
    exact no_delivered_loop m.text fuel 0 ls [] i (by simp)

/-! ## Envelopes, adapters, outbound routing -/

/-- `Envelope` (src/envelope): addressing metadata for an outbound message. -/
structure Envelope where
  user : String
  room : String
  adapterName : String
deriving DecidableEq

/-- One JavaScript argument of a variadic adapter method: either a bare
string or an array of strings. -/
inductive JsArg where
  | str (s : String)
  | arr (l : List String)
deriving DecidableEq

/-- Observable effect produced by a (possibly overridden) adapter method. -/
inductive AdapterEffect where
  | effect (descr : String)
deriving DecidableEq

/-- The overridable outbound method table of an adapter instance. The base
class implementations are `Adapter.base` below; a platform adapter may
override any of them. -/
structure AdapterImpl where
  send : Option Envelope → List JsArg → List AdapterEffect
  reply : Envelope → List JsArg → List AdapterEffect
  topic : Envelope → List JsArg → List AdapterEffect
  play : Envelope → List JsArg → List AdapterEffect

/-- `Adapter.send(envelope?, ...strings) {}` (src/adapter.ts:17): a no-op. -/
def Adapter.sendBase (_envelope : Option Envelope) (_strings : List JsArg) :
    List AdapterEffect := []

/-- `Adapter.reply(envelope, ...strings) {}` (src/adapter.ts:21): a no-op. -/
def Adapter.replyBase (_envelope : Envelope) (_strings : List JsArg) :
    List AdapterEffect := []

/-- `Adapter.topic(envelope, ...strings) {}` (src/adapter.ts:22): a no-op. -/
def Adapter.topicBase (_envelope : Envelope) (_strings : List JsArg) :
    List AdapterEffect := []

/-- `Adapter.play(envelope, ...strings) {}` (src/adapter.ts:23): a no-op. -/
def Adapter.playBase (_envelope : Envelope) (_strings : List JsArg) :
    List AdapterEffect := []

/-- The base `Adapter` method table. -/
def Adapter.base : AdapterImpl :=
  ⟨Adapter.sendBase, Adapter.replyBase, Adapter.topicBase, Adapter.playBase⟩

/-- `Adapter.emote(envelope, ...strings) { this.send(envelope, strings); }`
(src/adapter.ts:18-20): delegates to the instance's `send` via dynamic
dispatch, passing the collected rest-parameter array `strings` as one single
argument (it is not spread). -/
def Adapter.emote (self : AdapterImpl) (envelope : Envelope) (strings : List String) :
    List AdapterEffect :=
  self.send (some envelope) [JsArg.arr strings]

/-- Effects of the dispatcher's outbound path, including its log lines. -/
inductive RobotEffect where
  | log (s : String)
  | adapterSend (name : String) (env : Envelope) (msgs : List String)
  | adapterReply (name : String) (env : Envelope) (msgs : List String)
deriving DecidableEq

def RobotEffect.isAdapterCall : RobotEffect → Bool
  | RobotEffect.log _ => false
  | RobotEffect.adapterSend _ _ _ => true
  | RobotEffect.adapterReply _ _ _ => true

/-- `messages` normalization shared by `send` and `reply`
(src/adapter.ts:319-321 and 331-333): a bare string is promoted to a
one-element array. -/
def normalizeMessages : Sum String (List String) → List String
  | Sum.inl s => [s]
  | Sum.inr l => l

/-- `Robot.send(envelope, messages)` (src/adapter.ts:326-339): logs, promotes
a bare string, looks up `this.adapters[envelope.adapterName]` and throws
`Error("[Robot] Invalid adapter name: ...")` when the lookup is falsy, before
any adapter send happens; otherwise calls `adapter.send(envelope, messages)`.
The pair is (effects so far, normal or thrown outcome). -/
def Robot.send (adapters : List (String × AdapterImpl)) (envelope : Envelope)
    (messages : Sum String (List String)) : List RobotEffect × Except String Unit :=
  let logs := [RobotEffect.log
    ("[Robot] Sending in " ++ envelope.room ++ " via " ++ envelope.adapterName)]
  let msgs := normalizeMessages messages
  match adapters.lookup envelope.adapterName with
  | none => (logs, Except.error ("[Robot] Invalid adapter name: " ++ envelope.adapterName))
  | some _ => (logs ++ [RobotEffect.adapterSend envelope.adapterName envelope msgs],
               Except.ok ())

/-- `Robot.reply(envelope, messages)` (src/adapter.ts:312-324): logs, promotes
a bare string, then evaluates `this.adapters[envelope.adapterName].reply(...)`
with no existence check — in JavaScript, when the adapter name is not a key of
the registry the member access on `undefined` throws a `TypeError`
synchronously, before any adapter call. -/
def Robot.reply (adapters : List (String × AdapterImpl)) (envelope : Envelope)
    (messages : Sum String (List String)) : List RobotEffect × Except String Unit :=
  let logs := [RobotEffect.log
    ("[Robot] Attempting to reply to " ++ envelope.user ++ " in #" ++ envelope.room)]
  let msgs := normalizeMessages messages
  match adapters.lookup envelope.adapterName with
  | none => (logs, Except.error "TypeError: Cannot read property reply of undefined")
  | some _ => (logs ++ [RobotEffect.adapterReply envelope.adapterName envelope msgs],
               Except.ok ())

/-! ## Claim theorems: outbound routing and base adapter -/

/-- Claim C2. When the envelope's adapter name is not a key of the adapter
registry, `Robot.send` throws synchronously (outcome is the thrown
`Error("[Robot] Invalid adapter name: ...")`) and no adapter call of any kind
is among the produced effects — no partial send occurs. -/
theorem send_unknown_adapter (adapters : List (String × AdapterImpl)) (envelope : Envelope)
    (messages : Sum String (List String))
    (h : adapters.lookup envelope.adapterName = none) :
    (Robot.send adapters envelope messages).2
      = Except.error ("[Robot] Invalid adapter name: " ++ envelope.adapterName)
  ∧ ∀ e ∈ (Robot.send adapters envelope messages).1, e.isAdapterCall = false := by
  constructor
  · simp [Robot.send, h]
  · intro e he
    simp [Robot.send, h] at he
    simp [he, RobotEffect.isAdapterCall]

/-- Witness for `send_unknown_adapter`: an empty registry and
`send(envelope{adapterName:"slack"}, "hi")`. -/
theorem send_unknown_adapter_witness :
    (Robot.send ([] : List (String × AdapterImpl)) ⟨"u", "r", "slack"⟩ (Sum.inl "hi")).2
      = Except.error ("[Robot] Invalid adapter name: " ++ ("slack" : String))
  ∧ ∀ e ∈ (Robot.send ([] : List (String × AdapterImpl)) ⟨"u", "r", "slack"⟩
        (Sum.inl "hi")).1, e.isAdapterCall = false :=
  send_unknown_adapter [] ⟨"u", "r", "slack"⟩ (Sum.inl "hi") rfl

/-- Claim C3. `Robot.reply` with an unregistered adapter name raises a hard
error synchronously to the caller (in JavaScript the member access
`this.adapters[name].reply` on `undefined` throws a `TypeError`) and no
adapter call is performed — the messages are not silently dropped. -/
theorem reply_unknown_adapter (adapters : List (String × AdapterImpl)) (envelope : Envelope)
    (messages : Sum String (List String))
    (h : adapters.lookup envelope.adapterName = none) :
    (Robot.reply adapters envelope messages).2
      = Except.error "TypeError: Cannot read property reply of undefined"
  ∧ ∀ e ∈ (Robot.reply adapters envelope messages).1, e.isAdapterCall = false := by
  constructor
  · simp [Robot.reply, h]
  · intro e he
    simp [Robot.reply, h] at he
    simp [he, RobotEffect.isAdapterCall]

/-- Witness for `reply_unknown_adapter`. -/
theorem reply_unknown_adapter_witness :
    (Robot.reply ([] : List (String × AdapterImpl)) ⟨"u", "r", "slack"⟩ (Sum.inl "hi")).2
      = Except.error "TypeError: Cannot read property reply of undefined"
  ∧ ∀ e ∈ (Robot.reply ([] : List (String × AdapterImpl)) ⟨"u", "r", "slack"⟩
        (Sum.inl "hi")).1, e.isAdapterCall = false :=
  reply_unknown_adapter [] ⟨"u", "r", "slack"⟩ (Sum.inl "hi") rfl

/-- Claim C10. The base `Adapter.emote` delegates to the instance's `send`,
passing the collected strings as one single array argument (argument list of
length one, never spread), and the base `send`, `reply`, `topic` and `play`
are no-ops producing no effects. -/
theorem emote_delegates (self : AdapterImpl) (envelope : Envelope) (strings : List String) :
    Adapter.emote self envelope strings = self.send (some envelope) [JsArg.arr strings]
  ∧ ([JsArg.arr strings] : List JsArg).length = 1
  ∧ (∀ env args, Adapter.base.send env args = [])
  ∧ (∀ env args, Adapter.base.reply env args = [])
  ∧ (∀ env args, Adapter.base.topic env args = [])
  ∧ (∀ env args, Adapter.base.play env args = []) :=
  ⟨rfl, rfl, fun _ _ => rfl, fun _ _ => rfl, fun _ _ => rfl, fun _ _ => rfl⟩

/-! ## Respond patterns and a matcher for the compiled regex subset -/

/-- A compiled JavaScript `RegExp` value: `source` and `flags`. -/
structure JsRegExp where
  source : String
  flags : String
deriving DecidableEq

/-- JavaScript `\s` (restricted to the ASCII whitespace the patterns at hand
can meet). -/
def jsWhitespace (c : Char) : Bool :=
  c == ' ' || c == '\t' || c == '\n' || c == '\r' || c == '\x0b' || c == '\x0c'

/-- A single-character matcher: a literal, a character set, or `\s`. -/
inductive CharM where
  | one (c : Char)
  | set (cs : List Char)
  | ws
deriving DecidableEq

/-- Character test; `ci` is the case-insensitive (`i`) flag. -/
def CharM.test (ci : Bool) : CharM → Char → Bool
  | CharM.one c, x => if ci then c.toLower == x.toLower else c == x
  | CharM.set cs, x => if ci then cs.any (fun c => c.toLower == x.toLower) else cs.contains x
  | CharM.ws, x => jsWhitespace x

/-- The regex subset the compiled respond patterns use: `^` (position-0
assertion, no `m` flag), single-character atoms with `*`/`?`, non-capturing
groups, and sequencing. -/
inductive RE where
  | eps
  | bol
  | ch (m : CharM)
  | star (m : CharM)
  | opt (m : CharM)
  | group (r : RE)
  | seq (a b : RE)
deriving DecidableEq

/-- Length of the run of characters matching `m` at the head of the list. -/
def runLen (ci : Bool) (m : CharM) : List Char → Nat
  | [] => 0
  | c :: rest => if CharM.test ci m c then runLen ci m rest + 1 else 0

/-- All positions at which a match of `re` starting at position `i` of
`input` can end (a set of end positions; `[]` means no match). -/
def ends (ci : Bool) (input : List Char) : RE → Nat → List Nat
  | RE.eps, i => [i]
  | RE.bol, i => if i = 0 then [0] else []
  | RE.ch m, i =>
      match input.get? i with
      | some c => if CharM.test ci m c then [i + 1] else []
      | none => []
  | RE.opt m, i =>
      i :: (match input.get? i with
            | some c => if CharM.test ci m c then [i + 1] else []
            | none => [])
  | RE.star m, i => idxRange i (runLen ci m (input.drop i) + 1)
  | RE.group r, i => ends ci input r i
  | RE.seq a b, i => ((ends ci input a i).map fun k => ends ci input b k).flatten

/-- `RegExp.prototype.test`: scan every start position. -/
def reTest (ci : Bool) (re : RE) (input : List Char) : Bool :=
  (idxRange 0 (input.length + 1)).any fun i => !(ends ci input re i).isEmpty

/-- Parse a character-set body up to the closing `]`. -/
def parseCharSet : List Char → Option (List Char × List Char)
  | [] => none
  | ']' :: rest => some ([], rest)
  | '\\' :: c :: rest =>
      match parseCharSet rest with
      | some (cs, r) => some (c :: cs, r)
      | none => none
  | c :: rest =>
      match parseCharSet rest with
      | some (cs, r) => some (c :: cs, r)
      | none => none

/-- Parse one single-character atom (escape, set, or literal). -/
def parseCharAtom : List Char → Option (CharM × List Char)
  | [] => none
  | '\\' :: c :: rest => some (if c == 's' then CharM.ws else CharM.one c, rest)
  | '[' :: rest =>
      match parseCharSet rest with
      | some (cs, r) => some (CharM.set cs, r)
      | none => none
  | '^' :: _ => none
  | '(' :: _ => none
  | ')' :: _ => none
  | '*' :: _ => none
  | '?' :: _ => none
  | c :: rest => some (CharM.one c, rest)

/-- Recursive-descent parser for the subset (fuelled; `parseRegex` supplies
ample fuel). Stops at `)` so group bodies can be parsed re-entrantly. -/
def parseSeq : Nat → List Char → Option (RE × List Char)
  | 0, _ => none
  | Nat.succ fuel, cs =>
    match cs with
    | [] => some (RE.eps, [])
    | ')' :: rest => some (RE.eps, ')' :: rest)
    | '^' :: rest =>
        (match parseSeq fuel rest with
         | some (t, r) => some (RE.seq RE.bol t, r)
         | none => none)
    | '(' :: '?' :: ':' :: rest =>
        (match parseSeq fuel rest with
         | some (sub, ')' :: r2) =>
            (match r2 with
             | '*' :: _ => none
             | '?' :: _ => none
             | _ =>
                match parseSeq fuel r2 with
                | some (t, r3) => some (RE.seq (RE.group sub) t, r3)
                | none => none)
         | _ => none)
    | cs2 =>
        match parseCharAtom cs2 with
        | some (m, rest) =>
            (match rest with
             | '*' :: r2 =>
                (match parseSeq fuel r2 with
                 | some (t, r) => some (RE.seq (RE.star m) t, r)
                 | none => none)
             | '?' :: r2 =>
                (match parseSeq fuel r2 with
                 | some (t, r) => some (RE.seq (RE.opt m) t, r)
                 | none => none)
             | r3 =>
                (match parseSeq fuel r3 with
                 | some (t, r) => some (RE.seq (RE.ch m) t, r)
                 | none => none))
        | none => none

def parseRegex (src : String) : Option RE :=
  match parseSeq (src.data.length + 1) src.data with
  | some (re, []) => some re
  | _ => none

/-- `re.test(input)` for a compiled `JsRegExp` (patterns outside the parsed
subset yield `false`; every pattern this development evaluates is shown to
parse). -/
def matchesRe (re : JsRegExp) (input : String) : Bool :=
  match parseRegex re.source with
  | some ast => reTest (re.flags.data.contains 'i') ast input.data
  | none => false

/-- The character class of `name.replace(/[-[\]{}()*+?.,\\^$|#\s]/g, "\\$&")`
(src/adapter.ts:247). -/
def regexSpecials : List Char :=
  ['-', '[', ']', '\x7b', '\x7d', '(', ')', '*', '+', '?', '.', ',', '\\', '^', '$', '|', '#',
   ' ', '\t', '\n', '\r', '\x0b', '\x0c']

/-- Escape the bot name for splicing into a regex source. -/
def escapeRegex (name : String) : String :=
  String.mk (name.data.flatMap fun c => if regexSpecials.contains c then ['\\', c] else [c])

/-- JavaScript `String.prototype.toLowerCase` (ASCII; the bot names at hand
are ASCII). -/
def jsToLower (l : List Char) : List Char :=
  l.map Char.toLower

/-- JavaScript `String.prototype.split` with a one-character separator. -/
def jsSplitChar (sep : Char) : List Char → List (List Char)
  | [] => [[]]
  | c :: rest =>
      if c = sep then [] :: jsSplitChar sep rest
      else
        match jsSplitChar sep rest with
        | [] => [[c]]
        | h :: t => (c :: h) :: t

/-- Result of `Robot.respondPattern`: the pattern handed to `TextListener`
(either the `{:BOT_NAME}`-prefixed string, for string input, or a built
RegExp) plus the warnings logged while building it. -/
structure RespondResult where
  pattern : Sum String JsRegExp
  warnings : List String

/-- `Robot.respondPattern(regex)` (src/adapter.ts:246-270). A string pattern
returns early as `` `{:BOT_NAME} ${regex}` `` — it never reaches the anchor
check or the regex wrap. A RegExp is deconstructed via
`toString().split("/")` (shift the leading empty segment, pop the modifiers);
empty modifiers default to `"i"`; a body whose first segment starts with `^`
logs two non-fatal warnings; the body is rejoined and wrapped as
`^\s*[@]*<escaped lowercased name>[:,]?\s*(?:<body>)`. -/
def respondPattern (botName : String) (pat : Sum String JsRegExp) : RespondResult :=
  let name := escapeRegex botName
  match pat with
  | Sum.inl s => ⟨Sum.inl (String.mk ("\x7b:BOT_NAME\x7d ".data ++ s.data)), []⟩
  | Sum.inr re =>
      let parts := (jsSplitChar '/' ('/' :: (re.source.data ++ '/' :: re.flags.data))).drop 1
      let modifiers0 := (parts.getLast?).getD []
      let body := parts.dropLast
      let modifiers := if modifiers0 = [] then ['i'] else modifiers0
      let warnings :=
        match body.head? with
        | some (c :: _) =>
            if c = '^' then
              ["Anchors dont work well with respond, perhaps you want to use hear",
               String.mk ("The regex in question was /".data
                 ++ re.source.data ++ '/' :: re.flags.data)]
            else []
        | _ => []
      let pattern := List.intercalate ['/'] body
      ⟨Sum.inr ⟨String.mk ("^\\s*[@]*".data ++ jsToLower name.data ++ "[:,]?\\s*(?:".data
          ++ pattern ++ [')']), String.mk modifiers⟩, warnings⟩

/-- `dropPrefixL p l` strips the prefix `p` from `l`, if present. -/
def dropPrefixL {α : Type} [DecidableEq α] : List α → List α → Option (List α)
  | [], l => some l
  | _ :: _, [] => none
  | p :: ps, x :: xs => if p = x then dropPrefixL ps xs else none

/-- Modelled from the spec: the `TextListener` class (imported from
`./listener`, which is not under `src/`) compiles the `{:BOT_NAME} <pattern>`
string produced by `Robot.respondPattern` for string patterns by substituting
the bot name and wrapping per spec 4.2:
`^\s*[@]*<botname>[:,]?\s*(?:<pattern>)`, case-insensitive by default. -/
def compileStringPattern (botName : String) (s : String) : JsRegExp :=
  match dropPrefixL "\x7b:BOT_NAME\x7d ".data s.data with
  | some rest =>
      ⟨String.mk ("^\\s*[@]*".data ++ jsToLower (escapeRegex botName).data
          ++ "[:,]?\\s*(?:".data ++ rest ++ [')']), "i"⟩
  | none => ⟨s, "i"⟩

/-- The compiled pattern a listener registered through `Robot.respond` ends
up testing messages with, together with the warnings `respondPattern`
logged. -/
def respondCompile (botName : String) (pat : Sum String JsRegExp) :
    JsRegExp × List String :=
  let r := respondPattern botName pat
  match r.pattern with
  | Sum.inl s => (compileStringPattern botName s, r.warnings)
  | Sum.inr re => (re, r.warnings)

/-! ## Lemmas about the matcher -/

/-- Minimum number of characters a match of `re` must consume. -/
def minShift : RE → Nat
  | RE.eps => 0
  | RE.bol => 0
  | RE.ch _ => 1
  | RE.star _ => 0
  | RE.opt _ => 0
  | RE.group r => minShift r
  | RE.seq a b => minShift a + minShift b

/-- `forcesZero re = true` means every successful match of `re` passes
through a `^` assertion at its start position, forcing that position to 0. -/
def forcesZero : RE → Bool
  | RE.bol => true
  | RE.group r => forcesZero r
  | RE.seq a b => forcesZero a || forcesZero b
  | _ => false

/-- Syntactic dead-pattern check: somewhere a sub-sequence consumes at least
one character before a part that forces position 0 — as in a respond pattern
whose body carries its own leading `^` after the mandatory bot name. -/
def deadRE : RE → Bool
  | RE.seq a b => (decide (1 ≤ minShift a) && forcesZero b) || deadRE a || deadRE b
  | RE.group r => deadRE r
  | _ => false

lemma mem_ends_seq (ci : Bool) (input : List Char) (a b : RE) (i k : Nat) :
    k ∈ ends ci input (RE.seq a b) i ↔
      ∃ j, j ∈ ends ci input a i ∧ k ∈ ends ci input b j := by
  simp only [ends, List.mem_flatten, List.mem_map]
  constructor
  · rintro ⟨l, ⟨j, hj, rfl⟩, hk⟩
    exact ⟨j, hj, hk⟩
  · rintro ⟨j, hj, hk⟩
    exact ⟨ends ci input b j, ⟨j, hj, rfl⟩, hk⟩

lemma ends_ge (ci : Bool) (input : List Char) :
    ∀ (re : RE) (i k : Nat), k ∈ ends ci input re i → i + minShift re ≤ k := by
  intro re
  induction re with
  | eps =>
      intro i k hk
      simp only [ends, List.mem_singleton] at hk
      simp [minShift, hk]
  | bol =>
      intro i k hk
      simp only [ends] at hk
      split_ifs at hk with h
      · simp only [List.mem_singleton] at hk
        simp [minShift, hk, h]
      · simp at hk
  | ch m =>
      intro i k hk
      simp only [ends] at hk
      cases hg : input.get? i with
      | none => rw [hg] at hk; simp at hk
      | some c =>
          rw [hg] at hk
          dsimp only at hk
          split_ifs at hk with h
          · simp only [List.mem_singleton] at hk
            simp [minShift, hk]
          · simp at hk
  | opt m =>
      intro i k hk
      simp only [ends] at hk
      rcases List.mem_cons.mp hk with h | h
      · simp [minShift, h]
      · cases hg : input.get? i with
        | none => rw [hg] at h; simp at h
        | some c =>
            rw [hg] at h
            dsimp only at h
            split_ifs at h with h2
            · simp only [List.mem_singleton] at h
              simp [minShift, h]
            · simp at h
  | star m =>
      intro i k hk
      simp only [ends] at hk
      have := (mem_idxRange _ _ _).mp hk
      simp [minShift]
      omega
  | group r ih =>
      intro i k hk
      simp only [ends] at hk
      have := ih i k hk
      simp only [minShift]
      omega
  | seq a b iha ihb =>
      intro i k hk
      rcases (mem_ends_seq ci input a b i k).mp hk with ⟨j, hj, hk2⟩
      have h1 := iha i j hj
      have h2 := ihb j k hk2
      simp only [minShift]
      omega

lemma forcesZero_spec (ci : Bool) (input : List Char) :
    ∀ (re : RE), forcesZero re = true → ∀ (i k : Nat), k ∈ ends ci input re i → i = 0 := by
  intro re
  induction re with
  | eps => intro h; simp [forcesZero] at h
  | bol =>
      intro _ i k hk
      simp only [ends] at hk
      split_ifs at hk with h
      · exact h
      · simp at hk
  | ch m => intro h; simp [forcesZero] at h
  | star m => intro h; simp [forcesZero] at h
  | opt m => intro h; simp [forcesZero] at h
  | group r ih =>
      intro h i k hk
      simp only [ends] at hk
      exact ih (by simpa [forcesZero] using h) i k hk
  | seq a b iha ihb =>
      intro h i k hk
      rcases (mem_ends_seq ci input a b i k).mp hk with ⟨j, hj, hk2⟩
      simp only [forcesZero, Bool.or_eq_true] at h
      rcases h with h | h
      · exact iha h i j hj
      · have hj0 := ihb h j k hk2
        have := ends_ge ci input a i j hj
        omega

lemma deadRE_spec (ci : Bool) (input : List Char) :
    ∀ (re : RE), deadRE re = true → ∀ (i : Nat), ends ci input re i = [] := by
  intro re
  induction re with
  | eps => intro h; simp [deadRE] at h
  | bol => intro h; simp [deadRE] at h
  | ch m => intro h; simp [deadRE] at h
  | star m => intro h; simp [deadRE] at h
  | opt m => intro h; simp [deadRE] at h
  | group r ih =>
      intro h i
      simp only [ends]
      exact ih (by simpa [deadRE] using h) i
  | seq a b iha ihb =>
      intro h i
      rw [List.eq_nil_iff_forall_not_mem]
      intro k hk
      rcases (mem_ends_seq ci input a b i k).mp hk with ⟨j, hj, hk2⟩
      simp only [deadRE, Bool.or_eq_true, Bool.and_eq_true, decide_eq_true_eq] at h
      rcases h with (⟨h1, h2⟩ | h) | h
      · have hge := ends_ge ci input a i j hj
        have hj0 := forcesZero_spec ci input b h2 j k hk2
        omega
      · rw [iha h i] at hj
        simp at hj
      · rw [ihb h j] at hk2
        simp at hk2

lemma reTest_false_of_dead (re : RE) (h : deadRE re = true) (ci : Bool) (input : List Char) :
    reTest ci re input = false := by
  simp only [reTest]
  rw [List.any_eq_false]
  intro i hi
  simp [deadRE_spec ci input re h i]

/-- `parsedDead re = true` certifies that the compiled pattern parses into
the subset and is syntactically dead (or fails to parse, in which case
`matchesRe` is `false` anyway). -/
def parsedDead (re : JsRegExp) : Bool :=
  match parseRegex re.source with
  | some ast => deadRE ast
  | none => true

lemma matchesRe_false_of_dead (re : JsRegExp) (h : parsedDead re = true) (s : String) :
    matchesRe re s = false := by
  cases hp : parseRegex re.source with
  | none => simp [matchesRe, hp]
  | some ast =>
      have hd : deadRE ast = true := by
        have h2 := h
        unfold parsedDead at h2
        simpa only [hp] using h2
      simp [matchesRe, hp, reTest_false_of_dead ast hd]

/-! ## Lemmas about the split used on RegExp.toString() -/

lemma jsSplitChar_no_sep (sep : Char) :
    ∀ (l : List Char), sep ∉ l → jsSplitChar sep l = [l] := by
  intro l
  induction l with
  | nil => intro _; rfl
  | cons c rest ih =>
      intro h
      have hc : ¬ c = sep := fun hc => h (by simp [hc])
      have hr : sep ∉ rest := fun hr => h (List.mem_cons_of_mem _ hr)
      simp [jsSplitChar, hc, ih hr]

lemma jsSplitChar_append (sep : Char) :
    ∀ (xs ys : List Char), sep ∉ xs →
      jsSplitChar sep (xs ++ sep :: ys) = xs :: jsSplitChar sep ys := by
  intro xs
  induction xs with
  | nil => intro ys _; simp [jsSplitChar]
  | cons c rest ih =>
      intro ys h
      have hc : ¬ c = sep := fun hc => h (by simp [hc])
      have hr : sep ∉ rest := fun hr => h (List.mem_cons_of_mem _ hr)
      simp [jsSplitChar, hc, ih ys hr]

lemma strMkData (s : String) : String.mk s.data = s := by
  cases s
  rfl

lemma strMkIf (fd : List Char) :
    String.mk (if fd = [] then ['i'] else fd)
      = if String.mk fd = "" then "i" else String.mk fd := by
  cases fd with
  | nil => simp
  | cons c cs =>
      have h : ¬ (String.mk (c :: cs) = "") := by
        intro h
        simpa using congrArg String.data h
      have h2 : ¬ ((c :: cs : List Char) = []) := by simp
      rw [if_neg h, if_neg h2]

lemma dropPrefixL_append {α : Type} [DecidableEq α] :
    ∀ (p l : List α), dropPrefixL p (p ++ l) = some l := by
  intro p
  induction p with
  | nil => intro l; rfl
  | cons a p ih => intro l; simp [dropPrefixL, ih l]

/-! ## Claim theorems: respond patterns -/

/-- Claim C4. A string pattern `p` registered via `respond` compiles (through
`respondPattern`'s `{:BOT_NAME}` placeholder and the spec-modelled
`TextListener` string compilation) to
`^\s*[@]*<botname>[:,]?\s*(?:<p>)` with the case-insensitive `i` flag; in
particular `"foo"` matches `"@botname: foo"`, `"botname, foo"` and
`"BOTNAME foo"`, but not `"randomfoo"`. -/
theorem respond_string_wrap :
    (∀ p : String,
        ((respondCompile "botname" (Sum.inl p)).1).flags = "i"
      ∧ ((respondCompile "botname" (Sum.inl p)).1).source
          = "^\\s*[@]*botname[:,]?\\s*(?:" ++ p ++ ")")
  ∧ matchesRe (respondCompile "botname" (Sum.inl "foo")).1 "@botname: foo" = true
  ∧ matchesRe (respondCompile "botname" (Sum.inl "foo")).1 "botname, foo" = true
  ∧ matchesRe (respondCompile "botname" (Sum.inl "foo")).1 "BOTNAME foo" = true
  ∧ matchesRe (respondCompile "botname" (Sum.inl "foo")).1 "randomfoo" = false := by
  refine ⟨?_, rfl, rfl, rfl, rfl⟩
  intro p
  obtain ⟨pd⟩ := p
  exact ⟨rfl, rfl⟩

/-- Claim C5, counterexample to the claim as stated: `respond("^foo")` with a
string pattern logs no warning at all — the string branch of `respondPattern`
returns before the anchor check is reached, so the claimed non-fatal warning
is absent (the warning list is empty). -/
theorem respond_string_anchor_no_warning :
    (respondCompile "botname" (Sum.inl "^foo")).2 = [] := rfl

/-- Claim C5 (amended). The anchor warning is logged only when the pattern is
a RegExp whose body begins with `^`; the string pattern `"^foo"` produces no
warning (the string branch returns early). In both forms the compiled
listener pattern — the bot-name prefix followed by `(?:^foo)` — can never
match any input, since the inner `^` would have to hold after the mandatory
bot-name characters. -/
theorem respond_anchor_behavior :
    (respondCompile "botname" (Sum.inl "^foo")).2 = []
  ∧ (respondCompile "botname" (Sum.inr ⟨"^foo", ""⟩)).2 ≠ []
  ∧ ((respondCompile "botname" (Sum.inr ⟨"^foo", ""⟩)).1).flags = "i"
  ∧ (parseRegex ((respondCompile "botname" (Sum.inl "^foo")).1).source).isSome = true
  ∧ (∀ s : String, matchesRe (respondCompile "botname" (Sum.inl "^foo")).1 s = false)
  ∧ (∀ s : String, matchesRe (respondCompile "botname" (Sum.inr ⟨"^foo", ""⟩)).1 s = false) := by
  refine ⟨rfl, List.cons_ne_nil _ _, rfl, rfl, ?_, ?_⟩
  · intro s
    exact matchesRe_false_of_dead _ (by rfl) s
  · intro s
    exact matchesRe_false_of_dead _ (by rfl) s

/-- Claim C6. For a RegExp pattern handed to `respond`, `respondPattern`
keeps explicit modifier flags unchanged and defaults empty modifiers to the
case-insensitive `"i"` (`/` cannot occur raw in a RegExp's `source` or
`flags`, which the hypotheses record). -/
theorem respond_regexp_flags (botName src flags : String)
    (hs : '/' ∉ src.data) (hf : '/' ∉ flags.data) :
    ((respondCompile botName (Sum.inr ⟨src, flags⟩)).1).flags
      = if flags = "" then "i" else flags := by
  have h1 : jsSplitChar '/' ('/' :: (src.data ++ '/' :: flags.data))
      = [] :: src.data :: [flags.data] := by
    have h2 := jsSplitChar_append '/' src.data flags.data hs
    have h3 := jsSplitChar_no_sep '/' flags.data hf
    simp [jsSplitChar, h2, h3]
  simp only [respondCompile, respondPattern, h1]
  simp [strMkIf flags.data, strMkData]

/-- Witness for `respond_regexp_flags`: `/foo/` defaults to `"i"`, `/foo/gm`
keeps `"gm"`. -/
theorem respond_regexp_flags_witness :
    ((respondCompile "botname" (Sum.inr ⟨"foo", ""⟩)).1).flags = "i"
  ∧ ((respondCompile "botname" (Sum.inr ⟨"foo", "gm"⟩)).1).flags = "gm" := by
  constructor
  · have h := respond_regexp_flags "botname" "foo" "" (by decide) (by decide)
    simpa using h
  · have h := respond_regexp_flags "botname" "foo" "gm" (by decide) (by decide)
    simpa using h
